import Mathlib

/-!
Verification of the codex-acp-agent specification against a shallow embedding
of the repository sources.

Rust strings are modelled as `List Char`; `String.len` (a byte count in Rust)
is modelled by summing UTF-8 sizes of the characters.  Each definition below
is a direct translation of the correspondingly named Rust item, with the
source file noted in its doc comment.
-/

deriving instance DecidableEq for Except

namespace CodexAcp

/-- Unicode white-space predicate used by Rust `char::is_whitespace`
(the `White_Space` property; the full table of code points). -/
def rustWhitespace (c : Char) : Bool :=
  c == ' ' || c == '\t' || c == '\n' || c == Char.ofNat 0x0B ||
  c == Char.ofNat 0x0C || c == '\r' || c == Char.ofNat 0x85 ||
  c == Char.ofNat 0xA0 || c == Char.ofNat 0x1680 ||
  (0x2000 ≤ c.toNat && c.toNat ≤ 0x200A) ||
  c == Char.ofNat 0x2028 || c == Char.ofNat 0x2029 ||
  c == Char.ofNat 0x202F || c == Char.ofNat 0x205F || c == Char.ofNat 0x3000

/-- Byte length of a Rust string slice (`str::len`), i.e. the sum of the
UTF-8 encoded sizes of its characters. -/
def byteLen (l : List Char) : Nat :=
  (l.map Char.utf8Size).sum

/-- Model of Rust `str::trim`: strip leading and trailing white space. -/
def trimC (l : List Char) : List Char :=
  ((l.dropWhile rustWhitespace).reverse.dropWhile rustWhitespace).reverse

/-- Model of Rust `str::trim_end`: strip trailing white space. -/
def trimEndC (l : List Char) : List Char :=
  (l.reverse.dropWhile rustWhitespace).reverse

/-- The two-newline separator `"\n\n"` used between reasoning sections. -/
def nl2 : List Char := ['\n', '\n']

/-- State of `ReasoningAggregator` (src/agent/events.rs, lines 369-372):
an ordered list of completed sections plus one in-progress buffer. -/
structure ReasoningAggregator where
  sections : List (List Char)
  current : List Char
deriving DecidableEq, Repr

/-- Model of `ReasoningAggregator::new` (src/agent/events.rs, line 375). -/
def ReasoningAggregator.new : ReasoningAggregator :=
  ⟨[], []⟩

/-- Model of `ReasoningAggregator::append_delta` (src/agent/events.rs, line 387). -/
def appendDelta (st : ReasoningAggregator) (delta : List Char) : ReasoningAggregator :=
  { st with current := st.current ++ delta }

/-- Model of `ReasoningAggregator::section_break` (src/agent/events.rs, line 391):
push the in-progress buffer as a section when it is non-empty. -/
def sectionBreak (st : ReasoningAggregator) : ReasoningAggregator :=
  if st.current = [] then st
  else { sections := st.sections ++ [st.current], current := [] }

/-- The loop body of `ReasoningAggregator::take_text` over the drained
sections (src/agent/events.rs, lines 403-412): skip sections whose trim is
empty, join the kept ones with a blank line, trimming each section's
trailing white space.  Returns the accumulated text plus the `first` flag. -/
def takeTextLoop : List (List Char) → Bool → List Char → List Char × Bool
  | [], first, acc => (acc, first)
  | s :: rest, first, acc =>
    if trimC s = [] then takeTextLoop rest first acc
    else takeTextLoop rest false ((if first then acc else acc ++ nl2) ++ trimEndC s)

/-- Model of `ReasoningAggregator::take_text` (src/agent/events.rs,
lines 399-428): returns the combined text (None when empty) and the
aggregator state afterwards (sections drained, current cleared). -/
def takeText (st : ReasoningAggregator) : Option (List Char) × ReasoningAggregator :=
  let (combined, first) := takeTextLoop st.sections true []
  let combined :=
    if trimC st.current = [] then combined
    else (if first then combined else combined ++ nl2) ++ trimEndC st.current
  (if combined = [] then none else some combined, ⟨[], []⟩)

/-- Model of `ReasoningAggregator::choose_final_text` (src/agent/events.rs,
lines 432-446): drain the aggregated text and pick between it and the
supplied final text by comparing trimmed byte lengths. -/
def chooseFinalText (st : ReasoningAggregator) (finalText : Option (List Char)) :
    Option (List Char) × ReasoningAggregator :=
  let (aggregated, st2) := takeText st
  match aggregated, finalText with
  | some agg, some f =>
    (if byteLen (trimC f) > byteLen (trimC agg) then some f else some agg, st2)
  | some agg, none => (some agg, st2)
  | none, some f => (some f, st2)
  | none, none => (none, st2)

/-- Behaviour of `choose_final_text(Some(t))` as claim C4 words it: return
`t` exactly when `trim(t).len > trim(agg).len` and otherwise return the
aggregated text (so nothing when the aggregate is empty).  Written from the
claim, to be compared against `chooseFinalText` from the source. -/
def chooseFinalTextClaimed (st : ReasoningAggregator) (t : List Char) : Option (List Char) :=
  let aggregated := (takeText st).1
  let agg := aggregated.getD []
  if byteLen (trimC t) > byteLen (trimC agg) then some t else aggregated

/-! ## Filesystem bridge path resolution (src/fs/bridge.rs) -/

/-- Splits a character list at every occurrence of `c`, the model of Rust
`str::split` with a one-character pattern (and of `String::split_on`). -/
def splitOnChar (c : Char) : List Char → List (List Char)
  | [] => [[]]
  | x :: xs =>
    if x = c then [] :: splitOnChar c xs
    else
      match splitOnChar c xs with
      | [] => [[x]]
      | seg :: rest => (x :: seg) :: rest

/-- Path component in the sense of `std::path::Component` on Unix, restricted
to the variants a root-free parse can produce (`RootDir` and `Prefix` are
represented by the `abs` flag of `RPath` instead). -/
inductive PComp where
  | cur : PComp
  | parent : PComp
  | normal : List Char → PComp
deriving DecidableEq, Repr

/-- Model of `PathBuf`: an absolute flag plus the component list. -/
structure RPath where
  abs : Bool
  comps : List PComp
deriving DecidableEq, Repr

/-- Parses the path segments between slashes into components: empty segments
are dropped, `.` becomes `CurDir`, `..` becomes `ParentDir`. -/
def parseComps (segs : List (List Char)) : List PComp :=
  segs.filterMap fun s =>
    if s = [] then none
    else if s = ['.'] then some PComp.cur
    else if s = ['.', '.'] then some PComp.parent
    else some (PComp.normal s)

/-- Model of `PathBuf::from(path)` plus `Path::components()` on Unix:
a leading slash makes the path absolute, the rest parses into components. -/
def parsePath (p : List Char) : RPath :=
  { abs := p.head? = some '/', comps := parseComps (splitOnChar '/' p) }

/-- The loop of `FsBridgeInner::resolve_path` (src/fs/bridge.rs, lines
207-221) over the candidate components: `CurDir` is ignored, `ParentDir`
pops the accumulated path (`PathBuf::pop` fails exactly when no component
is left, which yields the error), a normal component is pushed. -/
def resolveLoop (resolved : RPath) : List PComp → Except (List Char) RPath
  | [] => Except.ok resolved
  | PComp.cur :: rest => resolveLoop resolved rest
  | PComp.parent :: rest =>
    if resolved.comps = [] then Except.error "path escapes workspace root".data
    else resolveLoop { resolved with comps := resolved.comps.dropLast } rest
  | PComp.normal s :: rest =>
    resolveLoop { resolved with comps := resolved.comps ++ [PComp.normal s] } rest

/-- Model of `FsBridgeInner::resolve_path` (src/fs/bridge.rs, lines 201-224):
an absolute candidate passes through unchanged; a relative one is folded
over its components starting from the workspace root. -/
def resolvePath (workspaceRoot : RPath) (p : List Char) : Except (List Char) RPath :=
  let candidate := parsePath p
  if candidate.abs then Except.ok candidate
  else resolveLoop workspaceRoot candidate.comps

/-- A path lies under the workspace root when it has the same absoluteness
and the root's components are a prefix of its components (the reading of
"absolute path under W" in the specification). -/
def underPath (w r : RPath) : Prop :=
  w.abs = r.abs ∧ w.comps <+: r.comps

instance (w r : RPath) : Decidable (underPath w r) := by
  unfold underPath
  infer_instance

/-- A parsed path mentions no `..` component. -/
def noParent (p : RPath) : Prop :=
  PComp.parent ∉ p.comps

instance (p : RPath) : Decidable (noParent p) := by
  unfold noParent
  infer_instance

/-! ## Session store and write gating (src/agent/session.rs, src/main.rs) -/

/-- The slice of `SessionState` (src/agent/session.rs, lines 270-279) that
the mode lookup consults: the FS bridge session id and the current mode id. -/
structure SessState where
  fs_session_id : String
  current_mode : String
deriving DecidableEq, Repr

/-- The session map of `SessionModeLookup` (src/agent/session.rs, line 317),
modelled as an association list keyed by the ACP session id. -/
def Sessions := List (String × SessState)

/-- Lookup by map key, the model of `HashMap::get`. -/
def lookupKey (sessions : Sessions) (id : String) : Option SessState :=
  (List.find? (fun p => p.1 = id) sessions).map Prod.snd

/-- Model of `SessionModeLookup::current_mode` (src/agent/session.rs, lines
326-336): try the ACP id as a key first, then search for a matching
`fs_session_id`. -/
def currentMode (sessions : Sessions) (id : String) : Option String :=
  match lookupKey sessions id with
  | some st => some st.current_mode
  | none =>
    (List.find? (fun p => p.2.fs_session_id = id) sessions).map fun p => p.2.current_mode

/-- Model of `is_read_only_mode` (src/agent/session.rs, line 103). -/
def isReadOnlyMode (modeId : String) : Bool :=
  modeId = "read-only"

/-- Model of `SessionModeLookup::is_read_only` (src/agent/session.rs,
lines 339-343). -/
def isReadOnly (sessions : Sessions) (id : String) : Bool :=
  ((currentMode sessions id).map isReadOnlyMode).getD false

/-- Model of `SessionModeLookup::resolve_acp_session_id` (src/agent/session.rs,
lines 347-360): a known key resolves to itself, otherwise an entry with a
matching `fs_session_id` resolves to that entry's key. -/
def resolveAcpSessionId (sessions : Sessions) (id : String) : Option String :=
  if (lookupKey sessions id).isSome then some id
  else (List.find? (fun p => p.2.fs_session_id = id) sessions).map Prod.fst

/-- Outcome of dispatching a `WriteTextFile` client op. -/
inductive WriteDispatch where
  | rejected : String → WriteDispatch
  | forwarded : String → WriteDispatch
deriving DecidableEq, Repr

/-- Model of the `ClientOp::WriteTextFile` arm of the dispatcher loop
(src/main.rs, lines 85-104): resolve the session id; reply invalid-params
on an unknown session; reply invalid-params with the fixed data string when
the resolved session is read-only; otherwise forward the request (with the
resolved id) to the client. -/
def dispatchWriteTextFile (sessions : Sessions) (id : String) : WriteDispatch :=
  match resolveAcpSessionId sessions id with
  | some resolvedId =>
    if isReadOnly sessions resolvedId then
      WriteDispatch.rejected "write_text_file is disabled while session mode is read-only"
    else
      WriteDispatch.forwarded resolvedId
  | none => WriteDispatch.rejected "unknown session for write_text_file"

/-! ## Lifecycle: advertised auth methods and authenticate
(src/agent/lifecycle.rs) -/

/-- Model of `is_custom_provider` (src/agent/session.rs, line 111):
every provider other than the builtin `openai` is custom. -/
def isCustomProvider (providerId : String) : Bool :=
  providerId ≠ "openai"

/-- The auth method ids advertised by `CodexAgent::initialize`
(src/agent/lifecycle.rs, lines 21-47): always `chatgpt` and `apikey`, plus
the configured provider id itself when it is a custom provider. -/
def initializeAuthMethodIds (providerId : String) : List String :=
  ["chatgpt", "apikey"] ++ (if isCustomProvider providerId then [providerId] else [])

/-- Relevant state of the auth manager: whether `auth()` is `Some` after a
reload, and whether that auth is in ChatGPT mode. -/
structure AuthState where
  loaded : Bool
  chatgptMode : Bool
deriving DecidableEq, Repr

/-- Result of `CodexAgent::authenticate`, keeping the error kind and its
data string. -/
inductive AuthResult where
  | ok : AuthResult
  | authRequired : String → AuthResult
  | invalidParams : String → AuthResult
deriving DecidableEq, Repr

/-- Model of `CodexAgent::authenticate` (src/agent/lifecycle.rs, lines
81-151).  `registered` is `config.model_providers.contains_key` for the
configured provider id. -/
def authenticate (providerId : String) (registered : Bool) (auth : AuthState)
    (method : String) : AuthResult :=
  if method = "apikey" then
    if auth.loaded then AuthResult.ok
    else AuthResult.authRequired "Failed to load API key auth"
  else if method = "chatgpt" then
    if auth.loaded && auth.chatgptMode then AuthResult.ok
    else AuthResult.authRequired
      "ChatGPT login not found. Run `codex login` to connect your plan."
  else if method = "custom_provider" then
    if ¬ isCustomProvider providerId then
      AuthResult.invalidParams
        "Custom provider auth method is only available for custom providers"
    else if ¬ registered then
      AuthResult.authRequired
        ("Custom provider '" ++ providerId ++ "' is not configured in model_providers")
    else if auth.loaded then AuthResult.ok
    else
      AuthResult.authRequired
        ("Custom provider '" ++ providerId ++
          "' requires authentication. Please configure API credentials in your Codex config.")
  else AuthResult.invalidParams ("unknown auth method: " ++ method)

/-! ## Substring search and replacement (models of Rust `str` methods used
by src/fs/mcp_server.rs) -/

/-- Scanning pass of Rust `str::split` with a non-empty string pattern:
leftmost, non-overlapping matches.  The fuel argument decreases once per
scanned character; every call site passes `s.length + 1`, which suffices
because each step consumes at least one character of `s`. -/
def splitSubFuel (pat : List Char) : Nat → List Char → List Char → List (List Char)
  | 0, acc, s => [acc.reverse ++ s]
  | _ + 1, acc, [] => [acc.reverse]
  | n + 1, acc, x :: xs =>
    if pat.isPrefixOf (x :: xs) then
      acc.reverse :: splitSubFuel pat n [] ((x :: xs).drop pat.length)
    else splitSubFuel pat n (x :: acc) xs

/-- Model of Rust `str::split` collected to a vector (used to model both
`str::replace` and first-occurrence search). -/
def splitSub (pat s : List Char) : List (List Char) :=
  splitSubFuel pat (s.length + 1) [] s

/-- Joins segments with a separator, the model of joining split results and
of `Vec::join`. -/
def joinSep (sep : List Char) : List (List Char) → List Char
  | [] => []
  | [x] => x
  | x :: y :: rest => x ++ sep ++ joinSep sep (y :: rest)

/-- Model of Rust `str::contains` for a non-empty pattern. -/
def containsSub (pat s : List Char) : Bool :=
  2 ≤ (splitSub pat s).length

/-- Model of Rust `str::replace`: replace every (leftmost, non-overlapping)
occurrence of `pat` by `rep`. -/
def replaceAllSub (pat rep s : List Char) : List Char :=
  joinSep rep (splitSub pat s)

/-- Replacement of the first occurrence of `pat` by `rep`, the model of
`content.find(&old)` followed by `replace_range` (src/fs/mcp_server.rs,
lines 493-499); `none` when `pat` does not occur. -/
def replaceFirstSub (pat rep s : List Char) : Option (List Char) :=
  match splitSub pat s with
  | a :: b :: rest => some (a ++ rep ++ joinSep pat (b :: rest))
  | _ => none

/-- Model of Rust `char::to_ascii_lowercase` applied to every character. -/
def asciiLower (s : List Char) : List Char :=
  s.map fun c => if 'A' ≤ c && c ≤ 'Z' then Char.ofNat (c.toNat + 32) else c

/-! ## Embedded MCP server: staged edits (src/fs/mcp_server.rs) -/

/-- Model of `EditInstruction` (src/fs/mcp_server.rs, lines 383-387). -/
structure EditInstr where
  old_text : List Char
  new_text : List Char
  replace_all : Bool
deriving DecidableEq, Repr

/-- The error message for an empty `old_string` (src/fs/mcp_server.rs,
line 480). -/
def emptyOldMsg : List Char :=
  "the provided `old_string` is empty. No edits were applied.".data

/-- The fixed error message for a missing `old_string` (src/fs/mcp_server.rs,
lines 488 and 495). -/
def notFoundMsg : List Char :=
  "The provided `old_string` does not appear in the file. No edits were applied.".data

/-- Model of `apply_edits` (src/fs/mcp_server.rs, lines 475-503): apply the
instructions in order to the working content; an empty `old_string` fails,
`replace_all` string-replaces and fails when the result is unchanged, and
otherwise the first occurrence is replaced, failing when there is none. -/
def applyEdits (content : List Char) : List EditInstr → Except (List Char) (List Char)
  | [] => Except.ok content
  | e :: rest =>
    if e.old_text = [] then Except.error emptyOldMsg
    else if e.replace_all then
      let replaced := replaceAllSub e.old_text e.new_text content
      if replaced = content then Except.error notFoundMsg
      else applyEdits replaced rest
    else
      match replaceFirstSub e.old_text e.new_text content with
      | none => Except.error notFoundMsg
      | some c2 => applyEdits c2 rest

/-- The staged-edits map of the MCP child (src/fs/mcp_server.rs, lines
38-55), keyed by path. -/
def StagedMap := List (String × List Char)

/-- Model of `StagedEdits::get`. -/
def stagedGet (m : StagedMap) (path : String) : Option (List Char) :=
  (List.find? (fun p => p.1 = path) m).map Prod.snd

/-- Model of `StagedEdits::stage` (`HashMap::insert`). -/
def stagedInsert (m : StagedMap) (path : String) (content : List Char) : StagedMap :=
  (path, content) :: m.filter fun p => ¬ p.1 = path

/-- Model of `is_missing_file_error` (src/fs/mcp_server.rs, lines 516-519). -/
def isMissingFileError (msg : List Char) : Bool :=
  containsSub "no such file".data (asciiLower msg) ||
  containsSub "not found".data (asciiLower msg)

/-- Result of `stage_edits` as seen by the caller. -/
inductive StageResp where
  | noChanges : StageResp
  | written : List Char → StageResp
  | failed : List Char → StageResp
deriving DecidableEq, Repr

/-- The base-content computation of `stage_edits` (src/fs/mcp_server.rs,
lines 396-420): staged content when present, otherwise the bridge read,
with a missing-file error yielding the empty base. -/
def stageBase (bridgeRead : Except (List Char) (List Char)) (staged : StagedMap)
    (path : String) : Except (List Char) (List Char) :=
  match stagedGet staged path with
  | some c => Except.ok c
  | none =>
    match bridgeRead with
    | Except.ok c => Except.ok c
    | Except.error msg =>
      if isMissingFileError msg then Except.ok [] else Except.error msg

/-- Model of `stage_edits` (src/fs/mcp_server.rs, lines 389-473).  The two
bridge interactions are inputs: `bridgeRead` is the outcome of the bridge
read used when no staged entry exists, and `bridgeWrite` the outcome of the
bridge write (consulted only if a write is issued).  Returns the response,
the content sent to the bridge write if one was issued, and the staged map
afterwards. -/
def stageEdits (bridgeRead : Except (List Char) (List Char))
    (bridgeWrite : Except (List Char) Unit) (path : String)
    (edits : List EditInstr) (staged : StagedMap) :
    StageResp × Option (List Char) × StagedMap :=
  match stageBase bridgeRead staged path with
  | Except.error msg => (StageResp.failed msg, none, staged)
  | Except.ok base =>
    match applyEdits base edits with
    | Except.error msg => (StageResp.failed msg, none, staged)
    | Except.ok newContent =>
      if newContent = base then (StageResp.noChanges, none, staged)
      else
        match bridgeWrite with
        | Except.ok _ =>
          (StageResp.written newContent, some newContent,
            stagedInsert staged path newContent)
        | Except.error msg => (StageResp.failed msg, some newContent, staged)

/-! ## Bridge local fallback read (src/fs/bridge.rs, lines 271-295) -/

/-- Strips one trailing carriage return, as Rust `str::lines` does per line. -/
def stripCRL (l : List Char) : List Char :=
  if l.getLast? = some '\r' then l.dropLast else l

/-- Model of Rust `str::lines`: split on newline; a trailing newline adds no
line (the final empty segment is dropped); every newline-terminated segment
has a trailing carriage return stripped (the `\r` of a `\r\n` ending), while
a bare trailing carriage return on an unterminated final line is kept. -/
def rustLines (content : List Char) : List (List Char) :=
  if (splitOnChar '\n' content).getLast? = some [] then
    (splitOnChar '\n' content).dropLast.map stripCRL
  else
    (splitOnChar '\n' content).dropLast.map stripCRL ++
      [((splitOnChar '\n' content).getLast?).getD []]

/-- Model of the slicing part of `FsBridgeInner::read_locally`
(src/fs/bridge.rs, lines 281-294), given the file content that
`read_to_string` produced: with a start line, return lines
`[line-1, line-1+limit)` joined by newlines, and the empty string when the
start is past the last line; without one, return the whole content.
A missing `limit` reads to the end (`u32::MAX` lines). -/
def readLocally (content : List Char) (line limit : Option Nat) : List Char :=
  match line with
  | none => content
  | some startLine =>
    if (rustLines content).length ≤ startLine - 1 then []
    else
      joinSep ['\n']
        (((rustLines content).drop (startLine - 1)).take (limit.getD 4294967295))

/-! ## Embedded MCP server: paged reads (src/fs/mcp_server.rs) -/

/-- Model of Rust `str::split_inclusive('\n')`: segments keep their trailing
newline; the last segment may lack one; the empty string has no segments. -/
def splitInc (c : Char) : List Char → List (List Char)
  | [] => []
  | x :: xs =>
    if x = c then [x] :: splitInc c xs
    else
      match splitInc c xs with
      | [] => [[x]]
      | seg :: rest => (x :: seg) :: rest

/-- The maximal character prefix whose UTF-8 byte length is at most
`maxBytes`; this is `segment[..truncate_to_char_boundary(segment, maxBytes)]`
(src/fs/mcp_server.rs, lines 595-604). -/
def takeBytesPrefix (maxBytes : Nat) : List Char → List Char
  | [] => []
  | c :: cs =>
    if c.utf8Size ≤ maxBytes then c :: takeBytesPrefix (maxBytes - c.utf8Size) cs
    else []

/-- Fields of `ReadSnippet` (src/fs/mcp_server.rs, lines 27-36). -/
structure ReadSnippet where
  text : List Char
  lines_returned : Nat
  end_line : Nat
  truncated_by_line_limit : Bool
  truncated_by_bytes : Bool
  additional_lines_available : Bool
  bytes_returned : Nat
deriving DecidableEq, Repr

/-- The segment loop of `prepare_read_snippet` (src/fs/mcp_server.rs, lines
545-567): stop with the line-limit flag once enough lines were taken; on a
segment that would exceed the byte cap, keep its char-boundary prefix and
stop with the bytes flag; otherwise append the whole segment.  Returns
(text, lines taken, bytes used, truncated by line limit, truncated by
bytes). -/
def snippetLoop (lim maxB : Nat) :
    List (List Char) → Nat → Nat → List Char → List Char × Nat × Nat × Bool × Bool
  | [], taken, used, text => (text, taken, used, false, false)
  | seg :: rest, taken, used, text =>
    if lim ≤ taken then (text, taken, used, true, false)
    else
      let segB := byteLen seg
      if maxB < used + segB then
        let cutSeg := takeBytesPrefix (maxB - used) seg
        (text ++ cutSeg, taken + 1, used + byteLen cutSeg, false, true)
      else snippetLoop lim maxB rest (taken + 1) (used + segB) (text ++ seg)

/-- Model of `prepare_read_snippet` (src/fs/mcp_server.rs, lines 521-593). -/
def prepareReadSnippet (raw : List Char) (startLine lim maxB : Nat) : ReadSnippet :=
  if raw = [] ∨ lim = 0 then
    { text := [], lines_returned := 0, end_line := startLine - 1,
      truncated_by_line_limit := false, truncated_by_bytes := false,
      additional_lines_available := false, bytes_returned := 0 }
  else
    let r := snippetLoop lim maxB (splitInc '\n' raw) 0 0 []
    let text := r.1
    let taken := r.2.1
    let used := r.2.2.1
    let tLine := r.2.2.2.1
    let tBytes := r.2.2.2.2
    let rawLineCount := (rustLines raw).length
    let additional := tBytes || taken < rawLineCount || used < byteLen raw
    let endLine := if taken = 0 then startLine - 1 else startLine + (taken - 1)
    { text := text, lines_returned := taken, end_line := endLine,
      truncated_by_line_limit := tLine, truncated_by_bytes := tBytes,
      additional_lines_available := additional, bytes_returned := used }

/-- Decimal digits of a natural number; fuel-based so that it reduces in the
kernel (the fuel `n + 1` always suffices). -/
def natDigitsAux : Nat → Nat → List Char
  | 0, _ => []
  | _ + 1, 0 => []
  | f + 1, n => natDigitsAux f (n / 10) ++ [Char.ofNat (48 + n % 10)]

/-- Decimal rendering of a natural number, the model of `format!` on the
numeric fields of the read hint. -/
def natToChars (n : Nat) : List Char :=
  if n = 0 then ['0'] else natDigitsAux (n + 1) n

/-- Model of `build_file_read_hint` (src/fs/mcp_server.rs, lines 606-641). -/
def buildFileReadHint (s : ReadSnippet) (startLine lim maxB : Nat) :
    Option (List Char) :=
  if ¬ (s.truncated_by_line_limit || s.truncated_by_bytes ||
        s.additional_lines_available) then none
  else
    let effectiveEnd := if s.lines_returned = 0 then startLine else s.end_line
    let description :=
      "Read lines ".data ++ natToChars startLine ++ ['-'] ++ natToChars effectiveEnd
    let description := description ++
      (if s.truncated_by_bytes then
        " (hit ".data ++ natToChars maxB ++ " byte cap)".data
      else if s.truncated_by_line_limit || s.additional_lines_available then
        " (showing up to ".data ++ natToChars lim ++ " lines)".data
      else [])
    let nextLine := max (s.end_line + 1) startLine
    some ("<file-read-info>".data ++ description ++
      " Continue with line=".data ++ natToChars nextLine ++
      " limit=".data ++ natToChars lim ++ ".".data ++ "</file-read-info>".data)

/-- Everything the `read_text_file` tool-call arm produces: the bridge line
limit it used and the text plus `_meta.codex_fs_read` fields it returned. -/
structure ReadToolResult where
  bridgeLimit : Nat
  text : List Char
  start_line : Nat
  end_line : Nat
  lines_returned : Nat
  line_limit : Nat
  bytes_returned : Nat
  truncated : Bool
  truncated_by_line_limit : Bool
  truncated_by_bytes : Bool
  additional_lines_available : Bool
  next_line : Option Nat
  max_bytes : Option Nat
deriving DecidableEq, Repr

/-- The hard byte cap `MAX_READ_BYTES` (src/fs/mcp_server.rs, line 19). -/
def maxReadBytes : Nat := 50 * 1024

/-- Model of the `read_text_file` arm of `handle_tool_call`
(src/fs/mcp_server.rs, lines 196-264), given the content string the bridge
returned for the read issued with `limit = requested + 1` (`saturating_add`
on `u32`). -/
def readToolCall (line limit : Option Nat) (bridgeContent : List Char) :
    ReadToolResult :=
  let startLine := max (line.getD 1) 1
  let requestedLimit := (limit.filter (fun v => 0 < v)).getD 1000
  let bridgeLimit := min (requestedLimit + 1) 4294967295
  let snippet := prepareReadSnippet bridgeContent startLine requestedLimit maxReadBytes
  let text :=
    match buildFileReadHint snippet startLine requestedLimit maxReadBytes with
    | none => snippet.text
    | some hint => (if snippet.text = [] then [] else snippet.text ++ nl2) ++ hint
  let truncated := snippet.truncated_by_line_limit || snippet.truncated_by_bytes ||
    snippet.additional_lines_available
  { bridgeLimit := bridgeLimit, text := text, start_line := startLine,
    end_line := snippet.end_line, lines_returned := snippet.lines_returned,
    line_limit := requestedLimit, bytes_returned := snippet.bytes_returned,
    truncated := truncated,
    truncated_by_line_limit := snippet.truncated_by_line_limit,
    truncated_by_bytes := snippet.truncated_by_bytes,
    additional_lines_available := snippet.additional_lines_available,
    next_line := if truncated then some (snippet.end_line + 1) else none,
    max_bytes := if snippet.truncated_by_bytes then some maxReadBytes else none }

/-- Composition of the `read_text_file` tool call with a bridge read served
by the local fallback on `fileContent`: the bridge receives the original
`line` and `limit = requested + 1`, exactly as `handle_tool_call` issues it. -/
def readToolCallLocal (fileContent : List Char) (line limit : Option Nat) :
    ReadToolResult :=
  let requestedLimit := (limit.filter (fun v => 0 < v)).getD 1000
  let bridgeLimit := min (requestedLimit + 1) 4294967295
  readToolCall line limit (readLocally fileContent line (some bridgeLimit))

/-! ## Prompt event loop (src/agent/prompt.rs, lines 97-318) -/

/-- Decision returned by the permission round-trip
(`handle_response_outcome`). -/
inductive Decision where
  | approved : Decision
  | approvedForSession : Decision
  | abort : Decision
deriving DecidableEq, Repr

/-- Status of one plan step (`StepStatus` mapped to `PlanEntryStatus`). -/
inductive PlanStatus where
  | pending : PlanStatus
  | inProgress : PlanStatus
  | completed : PlanStatus
deriving DecidableEq, Repr

/-- One plan entry as forwarded in a `Plan` update. -/
structure PlanStep where
  step : List Char
  status : PlanStatus
deriving DecidableEq, Repr

/-- The backend event payloads handled by the prompt loop.  Approval events
carry the client's reply to the permission request (`none` models an error
outcome from the round-trip, after which no approval op is submitted);
`other` stands for every variant the loop ignores (`_ => {}`). -/
inductive EventMsg where
  | agentMessageDelta : List Char → EventMsg
  | agentMessage : List Char → EventMsg
  | agentReasoningDelta : List Char → EventMsg
  | agentReasoningRawContentDelta : List Char → EventMsg
  | agentReasoning : List Char → EventMsg
  | agentReasoningRawContent : List Char → EventMsg
  | agentReasoningSectionBreak : EventMsg
  | mcpToolCallBegin : String → EventMsg
  | mcpToolCallEnd : String → Bool → EventMsg
  | execCommandBegin : String → EventMsg
  | execCommandEnd : String → Int → EventMsg
  | execApprovalRequest : String → Option Decision → EventMsg
  | applyPatchApprovalRequest : String → Option Decision → EventMsg
  | patchApplyEnd : String → Bool → EventMsg
  | tokenCount : Option Nat → EventMsg
  | planUpdate : Option (List Char) → List PlanStep → EventMsg
  | taskComplete : EventMsg
  | errorEvent : List Char → EventMsg
  | streamError : List Char → EventMsg
  | shutdownComplete : EventMsg
  | turnAborted : EventMsg
  | other : EventMsg
deriving DecidableEq, Repr

/-- A backend event: its id plus the payload. -/
structure Event where
  id : String
  msg : EventMsg
deriving DecidableEq, Repr

/-- Everything the prompt loop emits: session updates sent on the update
channel, permission requests sent on the client-op channel, and approval
ops submitted back to the conversation. -/
inductive PromptOutput where
  | messageChunk : List Char → PromptOutput
  | thoughtChunk : List Char → PromptOutput
  | toolCall : String → PromptOutput
  | toolCallUpdate : String → PromptOutput
  | planUpdate : List PlanStep → PromptOutput
  | permissionRequest : String → PromptOutput
  | execApprovalOp : String → Decision → PromptOutput
  | patchApprovalOp : String → Decision → PromptOutput
deriving DecidableEq, Repr

/-- Stop reason with which the loop breaks. -/
inductive StopReason where
  | endTurn : StopReason
  | cancelled : StopReason
deriving DecidableEq, Repr

/-- State the prompt loop threads through events: the reasoning aggregator,
the `saw_message_delta` flag, and the session's cached token usage. -/
structure LoopState where
  reason : ReasoningAggregator
  sawMessageDelta : Bool
  tokenUsage : Option Nat
deriving DecidableEq, Repr

/-- Model of one iteration of the prompt event loop (src/agent/prompt.rs,
lines 98-318): the event is dropped when its id differs from the submit id;
otherwise the arm for its payload runs.  Returns the outputs emitted, the
state afterwards, and the stop reason if the loop breaks. -/
def stepEvent (submitId : String) (e : Event) (st : LoopState) :
    List PromptOutput × LoopState × Option StopReason :=
  if e.id ≠ submitId then ([], st, none)
  else
    match e.msg with
    | EventMsg.agentMessageDelta delta =>
      ([PromptOutput.messageChunk delta], { st with sawMessageDelta := true }, none)
    | EventMsg.agentMessage message =>
      if st.sawMessageDelta then ([], st, none)
      else ([PromptOutput.messageChunk message], st, none)
    | EventMsg.agentReasoningDelta delta =>
      ([], { st with reason := appendDelta st.reason delta }, none)
    | EventMsg.agentReasoningRawContentDelta delta =>
      ([], { st with reason := appendDelta st.reason delta }, none)
    | EventMsg.agentReasoning text =>
      let r1 := sectionBreak st.reason
      let finalText := if trimC text = [] then none else some text
      let res := chooseFinalText r1 finalText
      let outs :=
        match res.1 with
        | some t => if trimC t = [] then [] else [PromptOutput.thoughtChunk t]
        | none => []
      (outs, { st with reason := res.2 }, none)
    | EventMsg.agentReasoningRawContent text =>
      let r1 := sectionBreak st.reason
      let r2 := if trimC text = [] then r1 else appendDelta r1 text
      ([], { st with reason := r2 }, none)
    | EventMsg.agentReasoningSectionBreak =>
      ([], { st with reason := sectionBreak st.reason }, none)
    | EventMsg.mcpToolCallBegin callId => ([PromptOutput.toolCall callId], st, none)
    | EventMsg.mcpToolCallEnd callId _ =>
      ([PromptOutput.toolCallUpdate callId], st, none)
    | EventMsg.execCommandBegin callId => ([PromptOutput.toolCall callId], st, none)
    | EventMsg.execCommandEnd callId _ =>
      ([PromptOutput.toolCallUpdate callId], st, none)
    | EventMsg.execApprovalRequest callId reply =>
      let outs :=
        match reply with
        | some d => [PromptOutput.permissionRequest callId,
            PromptOutput.execApprovalOp e.id d]
        | none => [PromptOutput.permissionRequest callId]
      (outs, st, none)
    | EventMsg.applyPatchApprovalRequest callId reply =>
      let outs :=
        match reply with
        | some d => [PromptOutput.permissionRequest callId,
            PromptOutput.patchApprovalOp e.id d]
        | none => [PromptOutput.permissionRequest callId]
      (outs, st, none)
    | EventMsg.patchApplyEnd callId _ =>
      ([PromptOutput.toolCallUpdate callId], st, none)
    | EventMsg.tokenCount info =>
      match info with
      | some n => ([], { st with tokenUsage := some n }, none)
      | none => ([], st, none)
    | EventMsg.planUpdate explanation plan =>
      let outs :=
        match explanation with
        | some c => [PromptOutput.messageChunk c, PromptOutput.planUpdate plan]
        | none => [PromptOutput.planUpdate plan]
      (outs, st, none)
    | EventMsg.taskComplete => ([], st, some StopReason.endTurn)
    | EventMsg.errorEvent message =>
      ([PromptOutput.messageChunk (message ++ nl2)], st, none)
    | EventMsg.streamError message =>
      ([PromptOutput.messageChunk (message ++ nl2)], st, none)
    | EventMsg.shutdownComplete => ([], st, some StopReason.cancelled)
    | EventMsg.turnAborted => ([], st, some StopReason.cancelled)
    | EventMsg.other => ([], st, none)

/-- The prompt event loop run over a list of backend events, stopping at
the first terminal event; when the list is exhausted without a terminal
event the stop reason is `none` (the real loop would still be awaiting). -/
def runLoop (submitId : String) :
    List Event → LoopState → List PromptOutput × LoopState × Option StopReason
  | [], st => ([], st, none)
  | e :: rest, st =>
    let r := stepEvent submitId e st
    match r.2.2 with
    | some reasonStop => (r.1, r.2.1, some reasonStop)
    | none =>
      let r2 := runLoop submitId rest r.2.1
      (r.1 ++ r2.1, r2.2.1, r2.2.2)

/-! ## Theorems for the claims -/

/-- C2: for every `WriteTextFile` client-op whose session id resolves via the
session-mode lookup, the dispatcher replies invalid-params with data exactly
"write_text_file is disabled while session mode is read-only" when the
resolved session's current mode is `read-only`, and forwards the op (with the
resolved id) in any other mode. -/
theorem c2_write_gate (sessions : Sessions) (id rid : String)
    (hres : resolveAcpSessionId sessions id = some rid) :
    (currentMode sessions rid = some "read-only" →
      dispatchWriteTextFile sessions id =
        WriteDispatch.rejected
          "write_text_file is disabled while session mode is read-only") ∧
    (currentMode sessions rid ≠ some "read-only" →
      dispatchWriteTextFile sessions id = WriteDispatch.forwarded rid) := by
  unfold dispatchWriteTextFile
  rw [hres]
  constructor
  · intro h
    have hro : isReadOnly sessions rid = true := by
      unfold isReadOnly
      rw [h]
      simp [isReadOnlyMode]
    simp [hro]
  · intro h
    have hro : isReadOnly sessions rid = false := by
      unfold isReadOnly
      cases hm : currentMode sessions rid with
      | none => rfl
      | some m =>
        have hne : m ≠ "read-only" := by
          intro hcontra
          exact h (by rw [hm, hcontra])
        simp [isReadOnlyMode, hne]
    simp [hro]

theorem c2_write_gate_witness :
    dispatchWriteTextFile [("acp1", ⟨"fs1", "read-only"⟩)] "fs1" =
      WriteDispatch.rejected
        "write_text_file is disabled while session mode is read-only" :=
  (c2_write_gate [("acp1", ⟨"fs1", "read-only"⟩)] "fs1" "acp1" (by decide)).1
    (by decide)

/-- C9: with a custom provider `myprov` configured (registered in the
provider registry, auth loaded), `initialize` advertises the method id
`myprov`, yet `authenticate` with that advertised id replies invalid-params
"unknown auth method: myprov" — only the never-advertised literal id
`custom_provider` reaches the custom-provider branch. -/
theorem c9_advertised_custom_method_rejected :
    "myprov" ∈ initializeAuthMethodIds "myprov" ∧
    authenticate "myprov" true ⟨true, false⟩ "myprov" =
      AuthResult.invalidParams "unknown auth method: myprov" ∧
    authenticate "myprov" true ⟨true, false⟩ "custom_provider" = AuthResult.ok := by
  refine ⟨by decide, by decide, by decide⟩

/-- C4 counterexample: on an empty aggregator with final text `" "`, the
code returns the final text even though its trimmed length does not exceed
the aggregated one, while the claimed behaviour returns the (absent)
aggregate. -/
theorem c4_counterexample :
    (chooseFinalText ReasoningAggregator.new (some [' '])).1 ≠
      chooseFinalTextClaimed ReasoningAggregator.new [' '] := by
  decide

/-- C4 (amended): when the drained aggregate is non-empty, the code returns
the final text exactly when its trimmed byte length is strictly larger and
the aggregate otherwise; when the drained aggregate is empty, the supplied
final text is returned unconditionally. -/
theorem c4_choose_final_text (st : ReasoningAggregator) (t : List Char) :
    ((takeText st).1 = none → (chooseFinalText st (some t)).1 = some t) ∧
    (∀ agg, (takeText st).1 = some agg →
      (chooseFinalText st (some t)).1 =
        if byteLen (trimC t) > byteLen (trimC agg) then some t else some agg) := by
  rcases hE : takeText st with ⟨o, st2⟩
  constructor
  · intro h
    have ho : o = none := h
    subst ho
    unfold chooseFinalText
    rw [hE]
  · intro agg h
    have ho : o = some agg := h
    subst ho
    unfold chooseFinalText
    rw [hE]

theorem c4_choose_final_text_witness :
    (chooseFinalText ⟨[['a']], []⟩ (some ['a', 'b'])).1 =
      if byteLen (trimC ['a', 'b']) > byteLen (trimC ['a'])
      then some ['a', 'b'] else some ['a'] :=
  (c4_choose_final_text ⟨[['a']], []⟩ ['a', 'b']).2 ['a'] (by decide)

/-- Every failure of `apply_edits` carries one of the two fixed messages:
the empty-`old_string` message or the not-found message. -/
theorem applyEdits_error_msg (edits : List EditInstr) :
    ∀ content msg, applyEdits content edits = Except.error msg →
      msg = emptyOldMsg ∨ msg = notFoundMsg := by
  induction edits with
  | nil =>
    intro content msg h
    simp [applyEdits] at h
  | cons e rest ih =>
    intro content msg h
    unfold applyEdits at h
    by_cases h1 : e.old_text = []
    · rw [if_pos h1] at h
      left
      exact (Except.error.injEq _ _).mp h.symm
    · rw [if_neg h1] at h
      by_cases h2 : e.replace_all = true
      · rw [if_pos h2] at h
        by_cases h3 : replaceAllSub e.old_text e.new_text content = content
        · rw [if_pos h3] at h
          right
          exact (Except.error.injEq _ _).mp h.symm
        · rw [if_neg h3] at h
          exact ih _ _ h
      · rw [if_neg h2] at h
        cases hr : replaceFirstSub e.old_text e.new_text content with
        | none =>
          rw [hr] at h
          right
          exact (Except.error.injEq _ _).mp h.symm
        | some c2 =>
          rw [hr] at h
          exact ih _ _ h

/-- C3: `edit_text_file` / `multi_edit_text_file` are all-or-nothing.  Given
the base content the staging step derives, if applying the instruction
sequence fails (an empty `old_string`, or an `old_string` absent from the
current content, with the fixed not-found message), then no bridge write is
issued and the staged map is unchanged; conversely, any content that is
written is exactly the result of applying every instruction. -/
theorem c3_edit_atomicity (bridgeRead : Except (List Char) (List Char))
    (bridgeWrite : Except (List Char) Unit) (path : String)
    (edits : List EditInstr) (staged : StagedMap) (base : List Char)
    (hb : stageBase bridgeRead staged path = Except.ok base) :
    (∀ msg, applyEdits base edits = Except.error msg →
      stageEdits bridgeRead bridgeWrite path edits staged =
        (StageResp.failed msg, none, staged) ∧
      (msg = emptyOldMsg ∨ msg = notFoundMsg)) ∧
    (∀ c, (stageEdits bridgeRead bridgeWrite path edits staged).2.1 = some c →
      applyEdits base edits = Except.ok c) := by
  constructor
  · intro msg happly
    refine ⟨?_, applyEdits_error_msg edits base msg happly⟩
    simp only [stageEdits, hb, happly]
  · intro c hwrote
    simp only [stageEdits, hb] at hwrote
    cases ha : applyEdits base edits with
    | error msg => simp only [ha] at hwrote; simp at hwrote
    | ok newContent =>
      simp only [ha] at hwrote
      by_cases heq : newContent = base
      · simp only [if_pos heq] at hwrote
        simp at hwrote
      · simp only [if_neg heq] at hwrote
        cases bridgeWrite with
        | ok u =>
          simp at hwrote
          rw [hwrote]
        | error m =>
          simp at hwrote
          rw [hwrote]

theorem c3_edit_atomicity_witness :
    stageEdits (Except.ok []) (Except.ok ()) "f"
        [⟨['x', 'y', 'z'], ['q'], false⟩] [("f", ['a', 'b', 'c', '\n'])] =
      (StageResp.failed notFoundMsg, none, [("f", ['a', 'b', 'c', '\n'])]) :=
  ((c3_edit_atomicity (Except.ok []) (Except.ok ()) "f"
      [⟨['x', 'y', 'z'], ['q'], false⟩] [("f", ['a', 'b', 'c', '\n'])]
      ['a', 'b', 'c', '\n'] (by decide)).1 notFoundMsg (by decide)).1

/-- C1 counterexample: with workspace root `/a/b`, the relative request path
`../x` resolves successfully to `/a/x` — `..` popped a component of the
workspace root itself — so the bridge neither stays under the root nor
fails, and the local fallback would open `/a/x` outside the root. -/
theorem c1_counterexample :
    resolvePath ⟨true, [PComp.normal ['a'], PComp.normal ['b']]⟩
        ['.', '.', '/', 'x'] =
      Except.ok ⟨true, [PComp.normal ['a'], PComp.normal ['x']]⟩ ∧
    ¬ underPath ⟨true, [PComp.normal ['a'], PComp.normal ['b']]⟩
        ⟨true, [PComp.normal ['a'], PComp.normal ['x']]⟩ ∧
    resolvePath ⟨true, [PComp.normal ['a'], PComp.normal ['b']]⟩
        ['.', '.', '/', 'x'] ≠
      Except.error "path escapes workspace root".data := by
  refine ⟨by decide, by decide, by decide⟩

/-- A resolve over `..`-free components always succeeds and stays under the
starting path. -/
theorem resolveLoop_noParent (comps : List PComp) :
    ∀ w : RPath, PComp.parent ∉ comps →
      ∃ r, resolveLoop w comps = Except.ok r ∧ r.abs = w.abs ∧
        w.comps <+: r.comps := by
  induction comps with
  | nil =>
    intro w _
    exact ⟨w, rfl, rfl, List.prefix_refl _⟩
  | cons c rest ih =>
    intro w h
    cases c with
    | cur =>
      exact ih w fun hm => h (List.mem_cons_of_mem _ hm)
    | parent =>
      exact absurd (List.mem_cons_self _ _) h
    | normal s =>
      obtain ⟨r, hr, habs, hpre⟩ :=
        ih ⟨w.abs, w.comps ++ [PComp.normal s]⟩
          fun hm => h (List.mem_cons_of_mem _ hm)
      refine ⟨r, hr, habs, List.IsPrefix.trans ?_ hpre⟩
      exact ⟨[PComp.normal s], rfl⟩

/-- A resolve either succeeds or fails with exactly the fixed escape
message. -/
theorem resolveLoop_ok_or_escape (comps : List PComp) :
    ∀ w : RPath, (∃ r, resolveLoop w comps = Except.ok r) ∨
      resolveLoop w comps = Except.error "path escapes workspace root".data := by
  induction comps with
  | nil => intro w; exact Or.inl ⟨w, rfl⟩
  | cons c rest ih =>
    intro w
    cases c with
    | cur => exact ih w
    | parent =>
      by_cases hc : w.comps = []
      · right
        unfold resolveLoop
        rw [if_pos hc]
      · have := ih ⟨w.abs, w.comps.dropLast⟩
        unfold resolveLoop
        rw [if_neg hc]
        exact this
    | normal s => exact ih ⟨w.abs, w.comps ++ [PComp.normal s]⟩

/-- C1 (amended): `resolve_path` passes an absolute request path through
unchanged (it may lie outside the workspace root); a relative path with no
`..` component resolves to a path under the root; and in general resolution
either succeeds (possibly outside the root, since `..` may pop the root's
own components) or fails with exactly "path escapes workspace root", which
happens only when a `..` finds no component left to pop. -/
theorem c1_resolve_path (w : RPath) (p : List Char) :
    ((parsePath p).abs = true → resolvePath w p = Except.ok (parsePath p)) ∧
    ((parsePath p).abs = false → noParent (parsePath p) →
      ∃ r, resolvePath w p = Except.ok r ∧ underPath w r) ∧
    ((∃ r, resolvePath w p = Except.ok r) ∨
      resolvePath w p = Except.error "path escapes workspace root".data) := by
  refine ⟨?_, ?_, ?_⟩
  · intro habs
    unfold resolvePath
    rw [if_pos habs]
  · intro habs hnp
    unfold resolvePath
    rw [if_neg (by rw [habs]; exact Bool.false_ne_true)]
    obtain ⟨r, hr, hrabs, hpre⟩ := resolveLoop_noParent (parsePath p).comps w hnp
    exact ⟨r, hr, hrabs.symm, hpre⟩
  · unfold resolvePath
    by_cases habs : (parsePath p).abs = true
    · rw [if_pos habs]
      exact Or.inl ⟨parsePath p, rfl⟩
    · rw [if_neg habs]
      exact resolveLoop_ok_or_escape (parsePath p).comps w

theorem c1_resolve_path_witness :
    ∃ r, resolvePath ⟨true, [PComp.normal ['w']]⟩ ['a', '/', 'b'] =
        Except.ok r ∧ underPath ⟨true, [PComp.normal ['w']]⟩ r :=
  (c1_resolve_path ⟨true, [PComp.normal ['w']]⟩ ['a', '/', 'b']).2.1
    (by decide) (by decide)

/-- Concatenation of a separator before every element, the building block
relating `joinSep` to the imperative separator loop. -/
def sepJoin (sep : List Char) (l : List (List Char)) : List Char :=
  (l.map fun x => sep ++ x).flatten

/-- The sections `take_text` keeps, already trailing-trimmed: those whose
trimmed form is non-empty. -/
def keptSections (sections : List (List Char)) : List (List Char) :=
  (sections.filter fun s => ¬ trimC s = []).map trimEndC

theorem joinSep_cons (sep x : List Char) (xs : List (List Char)) :
    joinSep sep (x :: xs) = x ++ sepJoin sep xs := by
  induction xs generalizing x with
  | nil => simp [joinSep, sepJoin]
  | cons y ys ih =>
    rw [joinSep, ih y]
    simp [sepJoin, List.append_assoc]

theorem sepJoin_append_single (sep y : List Char) (l : List (List Char)) :
    sepJoin sep (l ++ [y]) = sepJoin sep l ++ (sep ++ y) := by
  simp [sepJoin]

theorem takeTextLoop_false (sections : List (List Char)) :
    ∀ acc, takeTextLoop sections false acc =
      (acc ++ sepJoin nl2 (keptSections sections), false) := by
  induction sections with
  | nil => intro acc; simp [takeTextLoop, keptSections, sepJoin]
  | cons s rest ih =>
    intro acc
    by_cases hs : trimC s = []
    · rw [takeTextLoop, if_pos hs, ih acc]
      simp [keptSections, hs]
    · have hk : keptSections (s :: rest) = trimEndC s :: keptSections rest := by
        simp [keptSections, hs]
      rw [takeTextLoop, if_neg hs, ih, hk]
      simp [sepJoin, List.append_assoc]

theorem takeTextLoop_true (sections : List (List Char)) :
    ∀ acc, takeTextLoop sections true acc =
      match keptSections sections with
      | [] => (acc, true)
      | k :: ks => (acc ++ k ++ sepJoin nl2 ks, false) := by
  induction sections with
  | nil => intro acc; simp [takeTextLoop, keptSections]
  | cons s rest ih =>
    intro acc
    by_cases hs : trimC s = []
    · have hk : keptSections (s :: rest) = keptSections rest := by
        simp [keptSections, hs]
      rw [takeTextLoop, if_pos hs, ih acc, hk]
    · have hk : keptSections (s :: rest) = trimEndC s :: keptSections rest := by
        simp [keptSections, hs]
      rw [takeTextLoop, if_neg hs, takeTextLoop_false, hk]
      simp [List.append_assoc]

/-- A buffer whose trailing trim is empty trims to nothing at all. -/
theorem trimC_nil_of_trimEndC_nil (l : List Char) (h : trimEndC l = []) :
    trimC l = [] := by
  have h1 : l.reverse.dropWhile rustWhitespace = [] := by
    have := congrArg List.reverse h
    simpa [trimEndC] using this
  have h2 : ∀ c ∈ l, rustWhitespace c := by
    intro c hc
    exact List.dropWhile_eq_nil_iff.mp h1 c (List.mem_reverse.mpr hc)
  have h3 : l.dropWhile rustWhitespace = [] :=
    List.dropWhile_eq_nil_iff.mpr h2
  simp [trimC, h3]

/-- C10: when the in-progress buffer holds non-whitespace text, `take_text`
returns it (trailing-trimmed) as the final segment even though no
`section_break` preceded it, joined to the kept earlier sections by blank
lines; afterwards the aggregator is empty, so an immediate second
`take_text` returns `none`.  This is what lets the end-of-prompt flush
(src/agent/prompt.rs, lines 320-325) emit trailing reasoning that never
received a section break. -/
theorem c10_take_text_flush (st : ReasoningAggregator)
    (h : ¬ trimC st.current = []) :
    (takeText st).1 =
      some (joinSep nl2 (keptSections st.sections ++ [trimEndC st.current])) ∧
    (takeText st).2 = ReasoningAggregator.new ∧
    takeText (takeText st).2 = (none, ReasoningAggregator.new) := by
  have hte : ¬ trimEndC st.current = [] := fun hc =>
    h (trimC_nil_of_trimEndC_nil _ hc)
  refine ⟨?_, rfl, rfl⟩
  unfold takeText
  rw [takeTextLoop_true]
  cases hk : keptSections st.sections with
  | nil => simp [hte, h, joinSep]
  | cons k ks =>
    rw [List.cons_append, joinSep_cons, sepJoin_append_single]
    simp [hte, h, List.append_assoc]

theorem c10_take_text_flush_witness :
    (takeText ⟨[['a']], ['b']⟩).1 =
      some (joinSep nl2 (keptSections [['a']] ++ [trimEndC ['b']])) :=
  (c10_take_text_flush ⟨[['a']], ['b']⟩ (by decide)).1

/-- C5: an event whose id differs from the submit id is unconditionally
skipped by the prompt loop: no output is emitted, the state is unchanged,
and the loop does not stop. -/
theorem c5_event_filter (submitId : String) (e : Event) (st : LoopState)
    (h : e.id ≠ submitId) : stepEvent submitId e st = ([], st, none) := by
  unfold stepEvent
  rw [if_pos h]

theorem c5_event_filter_witness :
    stepEvent "s" ⟨"t", EventMsg.taskComplete⟩ ⟨ReasoningAggregator.new, false, none⟩ =
      ([], ⟨ReasoningAggregator.new, false, none⟩, none) :=
  c5_event_filter "s" ⟨"t", EventMsg.taskComplete⟩
    ⟨ReasoningAggregator.new, false, none⟩ (by decide)

/-- Whether a payload is an `AgentMessageDelta`. -/
def isDeltaMsg : EventMsg → Bool
  | EventMsg.agentMessageDelta _ => true
  | _ => false

/-- One loop iteration sets `saw_message_delta` exactly on a matching-id
`AgentMessageDelta` and otherwise preserves it. -/
theorem stepEvent_saw (submitId : String) (e : Event) (st : LoopState) :
    ((stepEvent submitId e st).2.1).sawMessageDelta =
      (st.sawMessageDelta || (decide (e.id = submitId) && isDeltaMsg e.msg)) := by
  by_cases h : e.id = submitId
  · unfold stepEvent
    rw [if_neg (not_not_intro h)]
    cases e.msg <;> simp [h, isDeltaMsg] <;> (try split <;> simp)
  · unfold stepEvent
    rw [if_pos h]
    simp [h]

/-- Over a run that did not stop, the final `saw_message_delta` flag is the
initial one or-ed with the presence of a matching-id delta event. -/
theorem runLoop_saw (submitId : String) (evs : List Event) :
    ∀ st, (runLoop submitId evs st).2.2 = none →
      ((runLoop submitId evs st).2.1).sawMessageDelta =
        (st.sawMessageDelta ||
          evs.any fun e => decide (e.id = submitId) && isDeltaMsg e.msg) := by
  induction evs with
  | nil => intro st _; simp [runLoop]
  | cons e rest ih =>
    intro st h
    have hsaw := stepEvent_saw submitId e st
    rcases hr : stepEvent submitId e st with ⟨outs, st1, stop⟩
    rw [hr] at hsaw
    unfold runLoop at h ⊢
    rw [hr] at h ⊢
    cases stop with
    | some r => simp at h
    | none =>
      simp only at h ⊢
      rw [ih st1 h, hsaw]
      simp [Bool.or_assoc]

/-- Splitting a run at a list append: if the first part stops, the second is
never reached; otherwise the outputs concatenate and the state threads
through. -/
theorem runLoop_append (submitId : String) (as bs : List Event) :
    ∀ st, runLoop submitId (as ++ bs) st =
      match runLoop submitId as st with
      | (outs, st1, some r) => (outs, st1, some r)
      | (outs, st1, none) =>
        (outs ++ (runLoop submitId bs st1).1, (runLoop submitId bs st1).2.1,
          (runLoop submitId bs st1).2.2) := by
  induction as with
  | nil => intro st; simp [runLoop]
  | cons e rest ih =>
    intro st
    rcases hr : stepEvent submitId e st with ⟨outs, st1, stop⟩
    rw [List.cons_append]
    conv_lhs => rw [runLoop]
    conv_rhs => rw [runLoop]
    rw [hr]
    cases stop with
    | some r => simp
    | none =>
      simp only
      rw [ih st1]
      rcases hrest : runLoop submitId rest st1 with ⟨outs2, st2, stop2⟩
      cases stop2 with
      | some r2 => simp
      | none => simp [List.append_assoc]

/-- C6: within one prompt, the `saw_message_delta` flag is set exactly when
a matching-id `AgentMessageDelta` was processed (each delta having been
emitted as a message chunk); once it is set, a terminal `AgentMessage` is
skipped entirely — the run equals the run without that event — and when no
delta was seen the `AgentMessage` is emitted as a single chunk. -/
theorem c6_message_dedup (submitId : String) (pre post : List Event)
    (m : List Char) (st0 : LoopState) (h0 : st0.sawMessageDelta = false)
    (hrun : (runLoop submitId pre st0).2.2 = none) :
    (((runLoop submitId pre st0).2.1).sawMessageDelta = true ↔
      ∃ e ∈ pre, e.id = submitId ∧ ∃ d, e.msg = EventMsg.agentMessageDelta d) ∧
    (((runLoop submitId pre st0).2.1).sawMessageDelta = true →
      runLoop submitId (pre ++ Event.mk submitId (EventMsg.agentMessage m) :: post) st0 =
        runLoop submitId (pre ++ post) st0) ∧
    (((runLoop submitId pre st0).2.1).sawMessageDelta = false →
      (runLoop submitId (pre ++ [Event.mk submitId (EventMsg.agentMessage m)]) st0).1 =
        (runLoop submitId pre st0).1 ++ [PromptOutput.messageChunk m]) := by
  have hsaw := runLoop_saw submitId pre st0 hrun
  rw [h0, Bool.false_or] at hsaw
  rcases hpre : runLoop submitId pre st0 with ⟨outs1, st1, stop1⟩
  rw [hpre] at hrun hsaw
  simp only at hrun hsaw
  subst hrun
  refine ⟨?_, ?_, ?_⟩
  · rw [hsaw]
    simp only [List.any_eq_true, Bool.and_eq_true, decide_eq_true_eq]
    constructor
    · rintro ⟨e, hmem, hid, hdelta⟩
      refine ⟨e, hmem, hid, ?_⟩
      cases hm : e.msg <;> rw [hm] at hdelta <;> simp [isDeltaMsg] at hdelta
      case agentMessageDelta d => exact ⟨d, rfl⟩
    · rintro ⟨e, hmem, hid, d, hd⟩
      exact ⟨e, hmem, hid, by rw [hd]; rfl⟩
  · intro h1
    have h1x : st1.sawMessageDelta = true := h1
    have hstep : stepEvent submitId (Event.mk submitId (EventMsg.agentMessage m)) st1 =
        ([], st1, none) := by
      unfold stepEvent
      rw [if_neg (not_not_intro rfl)]
      simp [h1x]
    have hmid : runLoop submitId
        (Event.mk submitId (EventMsg.agentMessage m) :: post) st1 =
        runLoop submitId post st1 := by
      conv_lhs => rw [runLoop]
      rw [hstep]
      rcases hp : runLoop submitId post st1 with ⟨o3, s3, p3⟩
      simp
    rw [runLoop_append, hpre, runLoop_append, hpre]
    simp only
    rw [hmid]
  · intro h1
    have h1x : st1.sawMessageDelta = false := h1
    have hstep : stepEvent submitId (Event.mk submitId (EventMsg.agentMessage m)) st1 =
        ([PromptOutput.messageChunk m], st1, none) := by
      unfold stepEvent
      rw [if_neg (not_not_intro rfl)]
      simp [h1x]
    have hmid : runLoop submitId [Event.mk submitId (EventMsg.agentMessage m)] st1 =
        ([PromptOutput.messageChunk m], st1, none) := by
      conv_lhs => rw [runLoop]
      rw [hstep]
      simp [runLoop]
    rw [runLoop_append, hpre]
    simp only
    rw [hmid]

theorem c6_message_dedup_witness :
    runLoop "s" [⟨"s", EventMsg.agentMessageDelta ['h', 'i']⟩,
        ⟨"s", EventMsg.agentMessage ['h', 'o']⟩]
      ⟨ReasoningAggregator.new, false, none⟩ =
    runLoop "s" [⟨"s", EventMsg.agentMessageDelta ['h', 'i']⟩]
      ⟨ReasoningAggregator.new, false, none⟩ :=
  (c6_message_dedup "s" [⟨"s", EventMsg.agentMessageDelta ['h', 'i']⟩] []
      ['h', 'o'] ⟨ReasoningAggregator.new, false, none⟩ rfl (by decide)).2.1
    (by decide)

/-- C8 counterexample: on the CRLF file `a\r\nb`, the local fallback for
lines [0,2) returns `a\nb`, which is not a contiguous byte slice of the
file — `str::lines` strips the `\r` and the rejoin uses bare newlines. -/
theorem c8_counterexample :
    readLocally ['a', '\r', '\n', 'b'] (some 1) (some 2) = ['a', '\n', 'b'] ∧
    ¬ ['a', '\n', 'b'] <:+: ['a', '\r', '\n', 'b'] := by
  refine ⟨by decide, by decide⟩

theorem splitOnChar_ne_nil (c : Char) (l : List Char) : splitOnChar c l ≠ [] := by
  cases l with
  | nil => simp [splitOnChar]
  | cons x xs =>
    unfold splitOnChar
    by_cases hx : x = c
    · simp [hx]
    · rw [if_neg hx]
      cases splitOnChar c xs <;> simp

theorem joinSep_splitOnChar (c : Char) (l : List Char) :
    joinSep [c] (splitOnChar c l) = l := by
  induction l with
  | nil => rfl
  | cons x xs ih =>
    unfold splitOnChar
    by_cases hx : x = c
    · rw [if_pos hx]
      rcases hS : splitOnChar c xs with _ | ⟨s, rest⟩
      · exact absurd hS (splitOnChar_ne_nil c xs)
      · rw [joinSep]
        rw [hS] at ih
        rw [ih, hx]
        rfl
    · rw [if_neg hx]
      rcases hS : splitOnChar c xs with _ | ⟨s, rest⟩
      · exact absurd hS (splitOnChar_ne_nil c xs)
      · rw [hS] at ih
        cases rest with
        | nil =>
          rw [joinSep] at ih ⊢
          rw [ih]
        | cons r rs =>
          rw [joinSep] at ih ⊢
          simp only [List.cons_append, List.append_assoc] at ih ⊢
          rw [ih]

theorem mem_of_mem_splitOnChar (c x : Char) (l : List Char) :
    ∀ seg ∈ splitOnChar c l, x ∈ seg → x ∈ l := by
  induction l with
  | nil =>
    intro seg hseg hx
    simp [splitOnChar] at hseg
    subst hseg
    simp at hx
  | cons y ys ih =>
    intro seg hseg hx
    unfold splitOnChar at hseg
    by_cases hy : y = c
    · rw [if_pos hy, List.mem_cons] at hseg
      rcases hseg with hseg | hseg
      · subst hseg; simp at hx
      · exact List.mem_cons_of_mem _ (ih seg hseg hx)
    · rw [if_neg hy] at hseg
      rcases hS : splitOnChar c ys with _ | ⟨s, rest⟩
      · exact absurd hS (splitOnChar_ne_nil c ys)
      · rw [hS, List.mem_cons] at hseg
        rcases hseg with hseg | hseg
        · subst hseg
          rw [List.mem_cons] at hx
          rcases hx with hx | hx
          · subst hx; exact List.mem_cons_self _ _
          · exact List.mem_cons_of_mem _
              (ih s (by rw [hS]; exact List.mem_cons_self _ _) hx)
        · exact List.mem_cons_of_mem _
            (ih seg (by rw [hS]; exact List.mem_cons_of_mem _ hseg) hx)

theorem sepJoin_cons (sep x : List Char) (xs : List (List Char)) :
    sepJoin sep (x :: xs) = sep ++ x ++ sepJoin sep xs := by
  simp [sepJoin]

theorem sepJoin_split_append (sep : List Char) (l1 l2 : List (List Char)) :
    sepJoin sep (l1 ++ l2) = sepJoin sep l1 ++ sepJoin sep l2 := by
  simp [sepJoin]

theorem joinSep_take_front (sep : List Char) (ps : List (List Char)) :
    ∀ k, joinSep sep (ps.take k) <+: joinSep sep ps := by
  induction ps with
  | nil => intro k; simp
  | cons p rest ih =>
    intro k
    cases k with
    | zero => exact List.nil_prefix
    | succ k =>
      rw [List.take_succ_cons, joinSep_cons, joinSep_cons]
      have h : sepJoin sep (rest.take k) <+: sepJoin sep rest := by
        refine ⟨sepJoin sep (rest.drop k), ?_⟩
        rw [← sepJoin_split_append, List.take_append_drop]
      obtain ⟨t, ht⟩ := h
      exact ⟨t, by rw [List.append_assoc, ht]⟩

theorem joinSep_drop_suffix (sep : List Char) (ps : List (List Char)) :
    ∀ a, joinSep sep (ps.drop a) <:+ joinSep sep ps := by
  induction ps with
  | nil => intro a; simp
  | cons p rest ih =>
    intro a
    cases a with
    | zero => exact List.suffix_refl _
    | succ a =>
      rw [List.drop_succ_cons]
      refine (ih a).trans ?_
      cases rest with
      | nil => exact List.nil_suffix
      | cons r rs =>
        refine ⟨p ++ sep, ?_⟩
        rw [joinSep_cons, joinSep_cons, sepJoin_cons]
        simp [List.append_assoc]

theorem joinSep_drop_take_within (sep : List Char) (ps : List (List Char))
    (a k : Nat) : joinSep sep ((ps.drop a).take k) <:+: joinSep sep ps :=
  ((joinSep_take_front sep (ps.drop a) k).isInfix).trans
    (joinSep_drop_suffix sep ps a).isInfix

theorem stripCRL_eq_self (seg : List Char) (h : '\r' ∉ seg) :
    stripCRL seg = seg := by
  unfold stripCRL
  cases hl : seg.getLast? with
  | none => rfl
  | some a =>
    by_cases ha : a = '\r'
    · subst ha
      obtain ⟨hne, heq⟩ := List.mem_getLast?_eq_getLast (show '\r' ∈ seg.getLast? by
        rw [hl]; rfl)
      exact absurd (heq ▸ List.getLast_mem hne) h
    · rw [if_neg (by simp [ha])]

/-- Without carriage returns, `str::lines` is just the newline split with a
trailing empty segment dropped. -/
theorem rustLines_of_no_cr (content : List Char) (hcr : '\r' ∉ content) :
    rustLines content =
      (if (splitOnChar '\n' content).getLast? = some [] then
        (splitOnChar '\n' content).dropLast
      else splitOnChar '\n' content) := by
  unfold rustLines
  have hmap : ∀ ps2 : List (List Char),
      (∀ seg ∈ ps2, seg ∈ splitOnChar '\n' content) → ps2.map stripCRL = ps2 := by
    intro ps2 hsub
    rw [List.map_congr_left, List.map_id]
    intro seg hseg
    exact stripCRL_eq_self seg fun hx =>
      hcr (mem_of_mem_splitOnChar '\n' '\r' content seg (hsub seg hseg) hx)
  by_cases hlast : (splitOnChar '\n' content).getLast? = some []
  · rw [if_pos hlast, if_pos hlast]
    exact hmap _ fun seg hseg => (List.dropLast_sublist _).subset hseg
  · rw [if_neg hlast, if_neg hlast]
    have hne : splitOnChar '\n' content ≠ [] := splitOnChar_ne_nil '\n' content
    rw [List.getLast?_eq_getLast_of_ne_nil hne, Option.getD_some,
      hmap _ fun seg hseg => (List.dropLast_sublist _).subset hseg]
    exact List.dropLast_append_getLast hne

/-- C8 (amended): with both `line` and `limit` set, the local fallback
returns lines [line-1, line-1+limit) of the file as `str::lines` computes
them (the `\r` of a `\r\n` ending stripped; a bare trailing carriage return
on an unterminated final line kept), joined by bare newlines; for
carriage-return-free content this is a contiguous byte slice of the file;
and a start line past end-of-file yields the empty string.  (For CRLF
content the result is not byte-identical, as the counterexample shows.) -/
theorem c8_read_locally_slice (content : List Char) (l k : Nat) :
    readLocally content (some l) (some k) =
      joinSep ['\n'] (((rustLines content).drop (l - 1)).take k) ∧
    ('\r' ∉ content → readLocally content (some l) (some k) <:+: content) ∧
    ((rustLines content).length ≤ l - 1 →
      readLocally content (some l) (some k) = []) := by
  have heq : readLocally content (some l) (some k) =
      joinSep ['\n'] (((rustLines content).drop (l - 1)).take k) := by
    unfold readLocally
    dsimp only [Option.getD_some]
    by_cases hle : (rustLines content).length ≤ l - 1
    · rw [if_pos hle, List.drop_eq_nil_of_le hle]
      simp [joinSep]
    · rw [if_neg hle]
  refine ⟨heq, fun hcr => ?_, ?_⟩
  · rw [heq, rustLines_of_no_cr content hcr]
    by_cases hlast : (splitOnChar '\n' content).getLast? = some []
    · rw [if_pos hlast, List.dropLast_eq_take, List.drop_take, List.take_take]
      conv_rhs => rw [← joinSep_splitOnChar '\n' content]
      exact joinSep_drop_take_within _ _ _ _
    · rw [if_neg hlast]
      conv_rhs => rw [← joinSep_splitOnChar '\n' content]
      exact joinSep_drop_take_within _ _ _ _
  · intro hle
    unfold readLocally
    dsimp only [Option.getD_some]
    rw [if_pos hle]

theorem c8_read_locally_slice_witness :
    readLocally ['a', '\n', 'b'] (some 2) (some 1) <:+: ['a', '\n', 'b'] :=
  (c8_read_locally_slice ['a', '\n', 'b'] 2 1).2.1 (by decide)

/-! ## Lemmas for the paged-read scenario (claim C7) -/

theorem splitOnChar_not_mem (c : Char) (p : List Char) (h : c ∉ p) :
    splitOnChar c p = [p] := by
  induction p with
  | nil => rfl
  | cons x xs ih =>
    unfold splitOnChar
    rw [if_neg fun hx => h (by rw [← hx]; exact List.mem_cons_self _ _),
      ih fun hx => h (List.mem_cons_of_mem _ hx)]

theorem splitOnChar_append_cons (c : Char) (t : List Char) (p : List Char)
    (h : c ∉ p) : splitOnChar c (p ++ c :: t) = p :: splitOnChar c t := by
  induction p with
  | nil =>
    rw [List.nil_append]
    conv_lhs => rw [splitOnChar]
    rw [if_pos rfl]
  | cons x xs ih =>
    rw [List.cons_append]
    conv_lhs => rw [splitOnChar]
    rw [if_neg fun hx => h (by rw [← hx]; exact List.mem_cons_self _ _),
      ih fun hx => h (List.mem_cons_of_mem _ hx)]

theorem splitOnChar_joinSep (c : Char) (ps : List (List Char)) :
    ps ≠ [] → (∀ p ∈ ps, c ∉ p) →
      splitOnChar c (joinSep [c] ps) = ps := by
  induction ps with
  | nil => intro h; exact absurd rfl h
  | cons p rest ih =>
    intro _ hfree
    cases rest with
    | nil =>
      rw [joinSep]
      exact splitOnChar_not_mem c p (hfree p (List.mem_cons_self _ _))
    | cons q rest2 =>
      rw [joinSep, List.append_assoc, List.singleton_append,
        splitOnChar_append_cons c _ p (hfree p (List.mem_cons_self _ _)),
        ih (by simp) fun x hx => hfree x (List.mem_cons_of_mem _ hx)]

theorem getLast?_mem_of_eq_some {α : Type} (l : List α) (x : α)
    (h : l.getLast? = some x) : x ∈ l := by
  obtain ⟨hne, heq⟩ := List.mem_getLast?_eq_getLast
    (show x ∈ l.getLast? from by rw [h]; rfl)
  exact heq ▸ List.getLast_mem hne

/-- The lines of an `n`-line file of single-`a` lines are the `n` lines. -/
theorem rustLines_joinSep_replicate (n : Nat) (hn : n ≠ 0) :
    rustLines (joinSep ['\n'] (List.replicate n ['a'])) =
      List.replicate n ['a'] := by
  obtain ⟨m, rfl⟩ : ∃ m, n = m + 1 := ⟨n - 1, by omega⟩
  have hsplit : splitOnChar '\n' (joinSep ['\n'] (List.replicate (m + 1) ['a'])) =
      List.replicate (m + 1) ['a'] := by
    refine splitOnChar_joinSep '\n' _ ?_ ?_
    · intro h
      rw [← List.length_eq_zero] at h
      rw [List.length_replicate] at h
      exact hn h
    · intro p hp
      rw [List.eq_of_mem_replicate hp]
      decide
  unfold rustLines
  rw [hsplit]
  have hlast : ¬ (List.replicate (m + 1) ['a']).getLast? = some [] := by
    rw [List.replicate_succ', List.getLast?_concat]
    simp
  rw [if_neg hlast]
  rw [List.replicate_succ' m ['a'], List.dropLast_concat, List.getLast?_concat,
    Option.getD_some, List.map_replicate]
  rw [show stripCRL ['a'] = ['a'] from rfl]

/-- Inclusive newline split of an `(m+1)`-line single-`a` file: `m` segments
with their newline, then the bare last line. -/
theorem splitInc_joinSep_replicate (m : Nat) :
    splitInc '\n' (joinSep ['\n'] (List.replicate (m + 1) ['a'])) =
      List.replicate m ['a', '\n'] ++ [['a']] := by
  induction m with
  | zero => decide
  | succ m ih =>
    rw [show List.replicate (m + 2) ['a'] =
      ['a'] :: ['a'] :: List.replicate m ['a'] from rfl]
    rw [joinSep]
    rw [show List.replicate (m + 1) ['a'] = ['a'] :: List.replicate m ['a'] from rfl] at ih
    rw [show (['a'] ++ ['\n'] ++ joinSep ['\n'] (['a'] :: List.replicate m ['a'])) =
      'a' :: '\n' :: joinSep ['\n'] (['a'] :: List.replicate m ['a']) from rfl]
    unfold splitInc
    rw [if_neg (by decide)]
    unfold splitInc
    rw [if_pos rfl, ih]
    rfl

/-- Running the snippet loop over `m` whole two-byte segments advances the
counters by `m` lines and `2 * m` bytes, as long as neither cap is hit. -/
theorem snippetLoop_replicate (lim maxB : Nat) (m : Nat) :
    ∀ taken used text tail, taken + m ≤ lim → used + 2 * m ≤ maxB →
      snippetLoop lim maxB (List.replicate m ['a', '\n'] ++ tail) taken used text =
        snippetLoop lim maxB tail (taken + m) (used + 2 * m)
          (text ++ (List.replicate m ['a', '\n']).flatten) := by
  induction m with
  | zero => intro taken used text tail _ _; simp
  | succ m ih =>
    intro taken used text tail hlim hbytes
    rw [List.replicate_succ, List.cons_append]
    rw [snippetLoop]
    rw [if_neg (by omega)]
    have hseg : byteLen ['a', '\n'] = 2 := by decide
    rw [hseg, if_neg (by omega)]
    rw [ih (taken + 1) (used + 2) (text ++ ['a', '\n']) tail (by omega) (by omega)]
    have h1 : taken + 1 + m = taken + (m + 1) := by omega
    have h2 : used + 2 + 2 * m = used + 2 * (m + 1) := by omega
    rw [h1, h2, List.flatten_cons, ← List.append_assoc]

/-- C7: reading a 2000-line file with `line = 1`, `limit = 1000` calls the
bridge with `limit = 1001`, returns the first 1000 lines followed by the
trailing hint line, and the `_meta.codex_fs_read` object carries
`next_line = 1001` and `truncated = true`. -/
theorem c7_paged_read :
    readToolCallLocal (joinSep ['\n'] (List.replicate 2000 ['a'])) (some 1) (some 1000) =
      { bridgeLimit := 1001,
        text := (List.replicate 1000 ['a', '\n']).flatten ++ nl2 ++
          "<file-read-info>Read lines 1-1000 (showing up to 1000 lines) Continue with line=1001 limit=1000.</file-read-info>".data,
        start_line := 1, end_line := 1000, lines_returned := 1000,
        line_limit := 1000, bytes_returned := 2000, truncated := true,
        truncated_by_line_limit := true, truncated_by_bytes := false,
        additional_lines_available := true, next_line := some 1001,
        max_bytes := none } := by
  have hrust2000 : rustLines (joinSep ['\n'] (List.replicate 2000 ['a'])) =
      List.replicate 2000 ['a'] := rustLines_joinSep_replicate 2000 (by norm_num)
  have hread : readLocally (joinSep ['\n'] (List.replicate 2000 ['a'])) (some 1) (some 1001) =
      joinSep ['\n'] (List.replicate 1001 ['a']) := by
    unfold readLocally
    dsimp only [Option.getD_some]
    rw [hrust2000, List.length_replicate]
    rw [if_neg (by norm_num)]
    rw [show (1 : Nat) - 1 = 0 from rfl, List.drop_zero, List.take_replicate]
    norm_num
  have hsplitinc := splitInc_joinSep_replicate 1000
  norm_num at hsplitinc
  have hloop : snippetLoop 1000 51200 (List.replicate 1000 ['a', '\n'] ++ [['a']]) 0 0 [] =
      ((List.replicate 1000 ['a', '\n']).flatten, 1000, 2000, true, false) := by
    rw [snippetLoop_replicate 1000 51200 1000 0 0 [] [['a']] (by norm_num) (by norm_num)]
    rw [snippetLoop]
    rw [if_pos (by norm_num)]
    rw [List.nil_append, show (0 + 1000 : Nat) = 1000 from by norm_num,
      show (0 + 2 * 1000 : Nat) = 2000 from by norm_num]
  have hraw_ne : joinSep ['\n'] (List.replicate 1001 ['a']) ≠ [] := by
    intro h
    rw [h] at hsplitinc
    have hlen := congrArg List.length hsplitinc
    rw [show splitInc '\n' [] = [] from rfl] at hlen
    rw [List.length_nil, List.length_append, List.length_replicate] at hlen
    norm_num at hlen
  have hrust1001 : rustLines (joinSep ['\n'] (List.replicate 1001 ['a'])) =
      List.replicate 1001 ['a'] := rustLines_joinSep_replicate 1001 (by norm_num)
  have hsnippet : prepareReadSnippet (joinSep ['\n'] (List.replicate 1001 ['a'])) 1 1000 51200 =
      { text := (List.replicate 1000 ['a', '\n']).flatten, lines_returned := 1000,
        end_line := 1000, truncated_by_line_limit := true,
        truncated_by_bytes := false, additional_lines_available := true,
        bytes_returned := 2000 } := by
    unfold prepareReadSnippet
    rw [if_neg (by
      rintro (hh | hh)
      · exact hraw_ne hh
      · norm_num at hh)]
    rw [hsplitinc, hloop]
    dsimp only
    rw [hrust1001, List.length_replicate]
    norm_num
  have hhint : buildFileReadHint
      { text := (List.replicate 1000 ['a', '\n']).flatten, lines_returned := 1000,
        end_line := 1000, truncated_by_line_limit := true,
        truncated_by_bytes := false, additional_lines_available := true,
        bytes_returned := 2000 } 1 1000 51200 =
      some "<file-read-info>Read lines 1-1000 (showing up to 1000 lines) Continue with line=1001 limit=1000.</file-read-info>".data := by
    decide
  have htext_ne : (List.replicate 1000 ['a', '\n']).flatten ≠ [] := by
    intro h
    rw [show (1000 : Nat) = 999 + 1 from by norm_num, List.replicate_succ,
      List.flatten_cons] at h
    exact absurd (List.append_eq_nil.mp h).1 (by decide)
  unfold readToolCallLocal readToolCall
  dsimp only
  rw [show (((some 1000 : Option Nat).filter fun v => 0 < v).getD 1000) = 1000 from rfl]
  rw [show min (1000 + 1) 4294967295 = 1001 from by norm_num]
  rw [show max ((some 1 : Option Nat).getD 1) 1 = 1 from rfl]
  rw [hread]
  rw [show maxReadBytes = 51200 from rfl]
  rw [hsnippet]
  dsimp only
  rw [hhint]
  rw [if_neg htext_ne]
  norm_num

end CodexAcp
